import Mathlib

/-!
# Verification of the smart-day-compass scheduling core

A shallow embedding of the conflict-detection engine
(`src/lib/conflictDetection.ts`) and the daily free-slot allocator
(`optimizeSchedule` in `src/pages/Index.tsx`), together with proofs of the
behavioural claims about them.

Modelling conventions:
* `HH:MM` wall-clock strings are Lean `String`s; the JavaScript string
  primitives used by the source (`split(':')`, `Number(...)`,
  `toString()`, `padStart(2, '0')`) are embedded as structural functions
  over `List Char` so that they evaluate inside proofs.
* JavaScript `number` values are `Nat` here: every quantity in the core is
  a non-negative minute count.  The source's subtractions feed only into
  `>= 60` / `< 60` comparisons, and on the one path where JavaScript would
  produce a negative number the comparison outcome coincides with the
  truncated `Nat` subtraction, as noted at each use site.
* Optional fields (`string | undefined`) are `Option String`; JavaScript
  truthiness tests on them (`if (!x)`, `x ? a : b`) treat both `undefined`
  and the empty string as false, embedded by `truthy`.
* Malformed time strings are a caller precondition (the specification
  declares them undefined behaviour); `Number` on a non-numeric component
  yields `NaN` in JavaScript, embedded here by reading non-digit
  characters as `0`.  No claim depends on malformed input.
* The ambient `new Date()` "today" read by `shouldCompareTasks` is passed
  as an explicit `today : String` parameter.
-/

namespace SmartDay

/-- Value of a decimal digit character; non-digits (unreachable for
well-formed input) read as `0`. -/
def digitVal (c : Char) : Nat :=
  if 48 ≤ c.toNat ∧ c.toNat ≤ 57 then c.toNat - 48 else 0

/-- Decimal value of a digit list, as JavaScript `Number` computes it on a
string of digits (`Number("08") = 8`). -/
def digitsVal (cs : List Char) : Nat :=
  cs.foldl (fun n c => n * 10 + digitVal c) 0

/-- JavaScript `String.prototype.split(sep)` for a one-character
separator: `"".split(":") = [""]`, `"a:".split(":") = ["a", ""]`. -/
def splitChars (sep : Char) : List Char → List (List Char)
  | [] => [[]]
  | c :: cs =>
    let rest := splitChars sep cs
    if c = sep then [] :: rest
    else
      match rest with
      | [] => [[c]]
      | p :: ps => (c :: p) :: ps

/-- The decimal digit characters produced by JavaScript
`Number.prototype.toString()`. -/
def digitChar (n : Nat) : Char :=
  match n with
  | 0 => '0' | 1 => '1' | 2 => '2' | 3 => '3' | 4 => '4'
  | 5 => '5' | 6 => '6' | 7 => '7' | 8 => '8' | _ => '9'

/-- Fuel-indexed decimal rendering of a natural number (most significant
digit first); `natToDecimal` supplies enough fuel. -/
def natDigitsAux : Nat → Nat → List Char
  | _, 0 => []
  | n, fuel + 1 =>
    if n < 10 then [digitChar n]
    else natDigitsAux (n / 10) fuel ++ [digitChar (n % 10)]

/-- JavaScript `n.toString()` for a non-negative integer `n`. -/
def natToDecimal (n : Nat) : List Char :=
  natDigitsAux n (n + 1)

/-- JavaScript `s.padStart(2, '0')`. -/
def pad2 (cs : List Char) : List Char :=
  if 2 ≤ cs.length then cs else List.replicate (2 - cs.length) '0' ++ cs

/-- Embeds `timeToMinutes` from `conflictDetection.ts` (and its duplicate in
`Index.tsx`): `time.split(':')`, read the first two components as numbers,
return `hours * 60 + minutes`.  A missing minutes component (no `:` in the
input) is a precondition violation, read as `0`. -/
def timeToMinutes (time : String) : Nat :=
  match splitChars ':' time.data with
  | hs :: ms :: _ => digitsVal hs * 60 + digitsVal ms
  | [hs] => digitsVal hs * 60
  | [] => 0

/-- Embeds `minutesToTime` from `conflictDetection.ts` (and its duplicate in
`Index.tsx`): zero-padded `"HH:MM"` with `HH = minutes / 60` and
`MM = minutes % 60`; no modulo-1440 normalisation. -/
def minutesToTime (minutes : Nat) : String :=
  String.mk (pad2 (natToDecimal (minutes / 60)) ++ ':' :: pad2 (natToDecimal (minutes % 60)))

/-- JavaScript truthiness of a `string | undefined` value: `undefined` and
`""` are the falsy cases. -/
def truthy : Option String → Bool
  | none => false
  | some s => if s = "" then false else true

/-- Embeds `Task['type']` from `TaskCard.tsx`. -/
inductive TaskType
  | daily
  | once
  | flexible
deriving DecidableEq, Repr

/-- Embeds `Task['category']` from `TaskCard.tsx`. -/
inductive Category
  | medicine
  | appointment
  | work
  | family
  | personal
  | school
deriving DecidableEq, Repr

/-- The `Task` interface from `TaskCard.tsx`.  `frequency`,
`flexibleDuration` and `priority` are kept as raw option strings since the
core only ever compares them for equality (`frequency`) or ignores them.
`suggestedTime` is the field written by the optimizer. -/
structure Task where
  id : String
  title : String
  type : TaskType
  frequency : Option String := none
  completed : Bool
  startTime : Option String := none
  endTime : Option String := none
  date : Option String := none
  flexibleDuration : Option String := none
  priority : Option String := none
  category : Option Category := none
  suggestedTime : Option String := none
deriving DecidableEq, Repr

/-- Text of a category as interpolated by the template literal in the
conflict message (`undefined` when the field is absent). -/
def categoryText : Option Category → String
  | none => "undefined"
  | some Category.medicine => "medicine"
  | some Category.appointment => "appointment"
  | some Category.work => "work"
  | some Category.family => "family"
  | some Category.personal => "personal"
  | some Category.school => "school"

/-- Effective end minute of an interval: the parsed `endTime` when it is a
truthy string, else `start + 60` ("Default 1 hour if no end time").  This
is the `end ? timeToMinutes(end) : startMin + 60` pattern shared by
`doTimesOverlap` and the optimizer's interval construction. -/
def effectiveEndMin (startMin : Nat) : Option String → Nat
  | none => startMin + 60
  | some s => if s = "" then startMin + 60 else timeToMinutes s

/-- Embeds `doTimesOverlap` from `conflictDetection.ts`. -/
def doTimesOverlap (start1 : String) (end1 : Option String)
    (start2 : String) (end2 : Option String) : Bool :=
  let start1Min := timeToMinutes start1
  let end1Min := effectiveEndMin start1Min end1
  let start2Min := timeToMinutes start2
  let end2Min := effectiveEndMin start2Min end2
  decide (start1Min < end2Min) && decide (start2Min < end1Min)

/-- Embeds `shouldCompareTasks` from `conflictDetection.ts`; the source's
`new Date().toISOString().split('T')[0]` is the explicit `today`
parameter. -/
def shouldCompareTasks (today : String) (task1 task2 : Task) : Bool :=
  if task1.completed || task2.completed then false
  else if task1.type == TaskType.flexible || task2.type == TaskType.flexible then false
  else if task1.type == TaskType.daily && task2.type == TaskType.daily then
    task1.frequency == task2.frequency
  else if task1.type == TaskType.once && task2.type == TaskType.once then
    task1.date == task2.date
  else if task1.type == TaskType.daily && task2.type == TaskType.once then
    task2.date == some today
  else if task1.type == TaskType.once && task2.type == TaskType.daily then
    task1.date == some today
  else false

/-- Loop-body test of `findNextAvailableTime`: does the probe interval
`[current, current + 60)` (as time strings) conflict with some eligible
existing task? -/
def probeBusy (today : String) (taskToCheck : Task) (existingTasks : List Task)
    (current : Nat) : Bool :=
  existingTasks.any fun existingTask =>
    shouldCompareTasks today taskToCheck existingTask &&
    truthy existingTask.startTime &&
    doTimesOverlap (minutesToTime current) (some (minutesToTime (current + 60)))
      (existingTask.startTime.getD "") existingTask.endTime

/-- The `for (let i = 0; i < 24; i++)` loop of `findNextAvailableTime`,
with the remaining iteration count as fuel. -/
def findNextLoop (today : String) (taskToCheck : Task) (existingTasks : List Task)
    (desiredStart : String) : Nat → Nat → String
  | _, 0 => desiredStart
  | currentTime, fuel + 1 =>
    if probeBusy today taskToCheck existingTasks currentTime then
      findNextLoop today taskToCheck existingTasks desiredStart (currentTime + 30) fuel
    else minutesToTime currentTime

/-- Embeds `findNextAvailableTime` from `conflictDetection.ts`: probe every 30
minutes for up to 24 probes; return the original `desiredStart` if no
conflict-free probe is found. -/
def findNextAvailableTime (today : String) (desiredStart : String)
    (existingTasks : List Task) (taskToCheck : Task) : String :=
  findNextLoop today taskToCheck existingTasks desiredStart (timeToMinutes desiredStart) 24

/-- Embeds `TimeConflict['conflictType']` from `conflictDetection.ts` (the
`adjacent` alternative is declared but never produced). -/
inductive ConflictType
  | overlap
  | adjacent
  | category
deriving DecidableEq, Repr

/-- The `TimeConflict` interface from `conflictDetection.ts`. -/
structure TimeConflict where
  conflictingTask : Task
  conflictType : ConflictType
  message : String
deriving DecidableEq, Repr

/-- The `ConflictCheckResult` interface from `conflictDetection.ts`. -/
structure ConflictCheckResult where
  hasConflicts : Bool
  conflicts : List TimeConflict
  suggestedTime : Option String := none
deriving DecidableEq, Repr

/-- One iteration of the `for (const existingTask of existingTasks)` loop
of `checkTimeConflicts`: the conflict entry pushed for `existingTask`, if
any. -/
def conflictEntryFor (today : String) (newTask existingTask : Task) : Option TimeConflict :=
  if !shouldCompareTasks today newTask existingTask then none
  else if !truthy existingTask.startTime then none
  else if doTimesOverlap (newTask.startTime.getD "") newTask.endTime
      (existingTask.startTime.getD "") existingTask.endTime then
    let conflictType :=
      if newTask.category == existingTask.category then ConflictType.category
      else ConflictType.overlap
    let message :=
      if conflictType == ConflictType.category then
        "You have another " ++ categoryText existingTask.category ++ " task at "
          ++ existingTask.startTime.getD ""
      else
        "You have another task at " ++ existingTask.startTime.getD ""
    some { conflictingTask := existingTask, conflictType := conflictType, message := message }
  else none

/-- Embeds `checkTimeConflicts` from `conflictDetection.ts`. -/
def checkTimeConflicts (today : String) (newTask : Task)
    (existingTasks : List Task) : ConflictCheckResult :=
  if !truthy newTask.startTime then { hasConflicts := false, conflicts := [] }
  else
    let conflicts := existingTasks.filterMap (conflictEntryFor today newTask)
    let hasConflicts := decide (0 < conflicts.length)
    { hasConflicts := hasConflicts
      conflicts := conflicts
      suggestedTime :=
        if hasConflicts then
          some (findNextAvailableTime today (newTask.startTime.getD "") existingTasks newTask)
        else none }

/-- Return type of `getConflictSeverity`. -/
inductive Severity
  | none
  | warning
  | error
deriving DecidableEq, Repr

/-- Embeds `getConflictSeverity` from `conflictDetection.ts`. -/
def getConflictSeverity (conflicts : List TimeConflict) : Severity :=
  if conflicts.length = 0 then Severity.none
  else if conflicts.any fun c => c.conflictType == ConflictType.category then Severity.error
  else Severity.warning

/-- A `{ start, end }` minute interval as built by `optimizeSchedule` in
`Index.tsx`. -/
structure Interval where
  start : Nat
  «end» : Nat
deriving DecidableEq, Repr

/-- The interval `optimizeSchedule` builds for a scheduled task:
`{ start: timeToMinutes(t.startTime), end: t.endTime ?
timeToMinutes(t.endTime) : start + 60 }`. -/
def taskInterval (t : Task) : Interval :=
  { start := timeToMinutes (t.startTime.getD "")
    «end» := effectiveEndMin (timeToMinutes (t.startTime.getD "")) t.endTime }

/-- Stable insertion of an interval into a start-sorted list: the new
element goes before the first strictly later start, hence after every
earlier-or-equal one already present. -/
def insertByStart (x : Interval) : List Interval → List Interval
  | [] => [x]
  | y :: ys => if y.start < x.start then y :: insertByStart x ys else x :: y :: ys

/-- The `sort((a, b) => a.start - b.start)` calls of `optimizeSchedule`.
JavaScript `Array.prototype.sort` is stable, and a stable sort's output is
determined by the comparator, so the stable insertion sort used here is
extensionally the same function. -/
def sortByStart : List Interval → List Interval
  | [] => []
  | x :: xs => insertByStart x (sortByStart xs)

/-- Step 1 of `optimizeSchedule`: intervals of every non-completed task
with a (truthy) `startTime`, sorted by start ascending. -/
def scheduledIntervals (tasks : List Task) : List Interval :=
  sortByStart ((tasks.filter fun t => truthy t.startTime && !t.completed).map taskInterval)

/-- Embeds `hasTaskIn` from `optimizeSchedule`: `scheduled.some(t => t.start < end
&& t.end > start)`. -/
def hasTaskIn (scheduled : List Interval) (s e : Nat) : Bool :=
  scheduled.any fun t => decide (t.start < e) && decide (s < t.«end»)

/-- Step 1a of `optimizeSchedule`: push the sleep blocks `[23:00, 24:00)`
and `[00:00, 06:00)` and the morning block `[06:00, 07:00)` unless a task
already overlaps them (each check sees the pushes before it), then
re-sort. -/
def withVirtualBlocks (scheduled : List Interval) : List Interval :=
  let s1 := if hasTaskIn scheduled 1380 1440 then scheduled else scheduled ++ [⟨1380, 1440⟩]
  let s2 := if hasTaskIn s1 0 360 then s1 else s1 ++ [⟨0, 360⟩]
  let s3 := if hasTaskIn s2 360 420 then s2 else s2 ++ [⟨360, 420⟩]
  sortByStart s3

/-- The full occupied-interval list of one optimization pass. -/
def occupiedIntervals (tasks : List Task) : List Interval :=
  withVirtualBlocks (scheduledIntervals tasks)

/-- Step 2 of `optimizeSchedule`: the gap walk with working window
`[07:00, 23:00)` = `[420, 1380)`, accumulator `lastEnd`.  The source
compares `t.start - lastEnd >= 60` on JavaScript numbers; when
`t.start < lastEnd` that difference is negative and the test fails, and
the truncated `Nat` subtraction gives `0 < 60`, failing identically (the
same holds for the trailing `WORK_END - lastEnd >= 60` test). -/
def computeSlots : List Interval → Nat → List Interval
  | [], lastEnd => if 60 ≤ 1380 - lastEnd then [⟨lastEnd, 1380⟩] else []
  | t :: rest, lastEnd =>
    if 60 ≤ t.start - lastEnd then
      ⟨lastEnd, t.start⟩ :: computeSlots rest (max lastEnd t.«end»)
    else computeSlots rest (max lastEnd t.«end»)

/-- The `availableSlots` array of one optimization pass. -/
def availableSlots (tasks : List Task) : List Interval :=
  computeSlots (occupiedIntervals tasks) 420

/-- Step 3 of `optimizeSchedule`: walk the flexible tasks, skipping
exhausted slots (`end - start < 60`, again with the negative-difference
case agreeing with `Nat` subtraction), assigning each task the current
slot start and shrinking that slot by 60 minutes; `break` when the slots
run out.  The advancing `slotIdx` is embedded by recursing on the
remaining slot suffix. -/
def assignSlotsAux : Nat → List Task → List Interval → List (String × String)
  | 0, _, _ => []
  | _ + 1, [], _ => []
  | _ + 1, _ :: _, [] => []
  | fuel + 1, t :: rest, slot :: slots =>
    if slot.«end» - slot.start < 60 then assignSlotsAux fuel (t :: rest) slots
    else (t.id, minutesToTime slot.start)
      :: assignSlotsAux fuel rest ({ start := slot.start + 60, «end» := slot.«end» } :: slots)

/-- Step 3 wrapper: every loop iteration either consumes a task or
discards a slot, so `tasks + slots` iterations of fuel always suffice. -/
def assignSlots (ts : List Task) (slots : List Interval) : List (String × String) :=
  assignSlotsAux (ts.length + slots.length) ts slots

/-- The `suggestions` array computed by one pass of `optimizeSchedule`. -/
def optSuggestions (tasks : List Task) : List (String × String) :=
  assignSlots (tasks.filter fun t => t.type == TaskType.flexible && !t.completed)
    (availableSlots tasks)

/-- Step 4 of `optimizeSchedule`: write each suggestion onto its flexible
task, explicitly clearing `suggestedTime` on active flexible tasks without
one; other tasks pass through unchanged. -/
def applySuggestion (suggestions : List (String × String)) (task : Task) : Task :=
  if task.type == TaskType.flexible && !task.completed then
    match suggestions.find? fun s => s.1 == task.id with
    | some s => { task with suggestedTime := some s.2 }
    | none => { task with suggestedTime := none }
  else task

/-- Embeds `optimizeSchedule` from `Index.tsx` as the task-collection
transformation it applies: when there is no active flexible task it
returns early without mutating anything. -/
def optimizeSchedule (tasks : List Task) : List Task :=
  if (tasks.filter fun t => t.type == TaskType.flexible && !t.completed).length = 0 then tasks
  else tasks.map (applySuggestion (optSuggestions tasks))

/-- Mirror of `assignSlotsAux` carrying task ids and raw minute values,
used to reason about the assignment loop. -/
def assignIdsAux : Nat → List String → List Interval → List (String × Nat)
  | 0, _, _ => []
  | _ + 1, [], _ => []
  | _ + 1, _ :: _, [] => []
  | fuel + 1, i :: rest, slot :: slots =>
    if slot.«end» - slot.start < 60 then assignIdsAux fuel (i :: rest) slots
    else (i, slot.start)
      :: assignIdsAux fuel rest ({ start := slot.start + 60, «end» := slot.«end» } :: slots)

/-- Well-formedness of one task's times, the §3 data-model invariant that
`endTime`, when present, is not earlier than `startTime` (enforced at the
boundary, not by the core). -/
def taskTimesWF (t : Task) : Bool :=
  !truthy t.startTime ||
    decide (timeToMinutes (t.startTime.getD "") ≤
      effectiveEndMin (timeToMinutes (t.startTime.getD "")) t.endTime)

/-! Concrete task collections instantiating the claims' witnesses. -/

/-- Scenario-3 fixed task occupying 08:00 to 09:00. -/
def c2a : Task :=
  { id := "1", title := "morning", type := TaskType.daily, completed := false,
    startTime := some "08:00", endTime := some "09:00" }

/-- Scenario-3 fixed task occupying 12:00 to 13:00. -/
def c2b : Task :=
  { id := "2", title := "lunch", type := TaskType.daily, completed := false,
    startTime := some "12:00", endTime := some "13:00" }

/-- Scenario-3 flexible task. -/
def c2f : Task :=
  { id := "3", title := "reading", type := TaskType.flexible, completed := false }

/-- Witness existing task at 09:00 to 10:00. -/
def wExist : Task :=
  { id := "A", title := "standup", type := TaskType.daily, frequency := some "daily",
    completed := false, startTime := some "09:00", endTime := some "10:00",
    category := some Category.work }

/-- Witness candidate at 09:30, different category. -/
def wCand : Task :=
  { id := "B", title := "review", type := TaskType.daily, frequency := some "daily",
    completed := false, startTime := some "09:30",
    category := some Category.personal }

/-- Witness candidate at 09:30, same category as `wExist`. -/
def wCandSame : Task :=
  { id := "C", title := "sync", type := TaskType.daily, frequency := some "daily",
    completed := false, startTime := some "09:30",
    category := some Category.work }

/-- Witness candidate with no start time. -/
def wNoStart : Task :=
  { id := "D", title := "errand", type := TaskType.daily, completed := false }

/-- Witness flexible candidate with a start time set. -/
def wFlex : Task :=
  { id := "E", title := "stretch", type := TaskType.flexible, completed := false,
    startTime := some "09:30" }

/-- Witness fixed task blocking the whole working window. -/
def wBlocker : Task :=
  { id := "F", title := "conference", type := TaskType.daily, completed := false,
    startTime := some "07:00", endTime := some "23:00" }

/-- Witness flexible task carrying a stale suggestion. -/
def wStale : Task :=
  { id := "G", title := "journal", type := TaskType.flexible, completed := false,
    suggestedTime := some "09:00" }

/-! Arithmetic of the embedded string primitives. -/

theorem digitVal_digitChar {n : Nat} (h : n < 10) : digitVal (digitChar n) = n := by
  interval_cases n <;> decide

theorem digitChar_ne_colon (n : Nat) : digitChar n ≠ ':' := by
  unfold digitChar
  split <;> decide

theorem digitsVal_cons_zero (cs : List Char) : digitsVal ('0' :: cs) = digitsVal cs := by
  have h : digitVal '0' = 0 := by decide
  simp [digitsVal, h]

theorem digitsVal_append_digit (cs : List Char) (c : Char) :
    digitsVal (cs ++ [c]) = digitsVal cs * 10 + digitVal c := by
  simp [digitsVal, List.foldl_append]

theorem digitsVal_natDigitsAux : ∀ fuel n : Nat, n < fuel →
    digitsVal (natDigitsAux n fuel) = n := by
  intro fuel
  induction fuel with
  | zero => intro n h; omega
  | succ fuel ih =>
    intro n h
    unfold natDigitsAux
    split
    · next h10 =>
      have : digitsVal [digitChar n] = digitVal (digitChar n) := by simp [digitsVal]
      rw [this, digitVal_digitChar h10]
    · next h10 =>
      rw [digitsVal_append_digit, ih (n / 10) (by omega),
        digitVal_digitChar (Nat.mod_lt n (by omega))]
      omega

theorem digitsVal_natToDecimal (n : Nat) : digitsVal (natToDecimal n) = n :=
  digitsVal_natDigitsAux (n + 1) n (Nat.lt_succ_self n)

theorem natDigitsAux_ne_colon : ∀ fuel n : Nat, ∀ c ∈ natDigitsAux n fuel, c ≠ ':' := by
  intro fuel
  induction fuel with
  | zero => intro n c hc; simp [natDigitsAux] at hc
  | succ fuel ih =>
    intro n c hc
    unfold natDigitsAux at hc
    split at hc
    · rw [List.mem_singleton] at hc
      subst hc
      exact digitChar_ne_colon _
    · rw [List.mem_append] at hc
      rcases hc with hc | hc
      · exact ih _ _ hc
      · rw [List.mem_singleton] at hc
        subst hc
        exact digitChar_ne_colon _

theorem pad2_ne_colon (cs : List Char) (h : ∀ c ∈ cs, c ≠ ':') :
    ∀ c ∈ pad2 cs, c ≠ ':' := by
  intro c hc
  unfold pad2 at hc
  split at hc
  · exact h c hc
  · rw [List.mem_append] at hc
    rcases hc with hc | hc
    · rw [List.eq_of_mem_replicate hc]
      decide
    · exact h c hc

theorem digitsVal_replicate_zero : ∀ k : Nat, ∀ cs : List Char,
    digitsVal (List.replicate k '0' ++ cs) = digitsVal cs := by
  intro k
  induction k with
  | zero => intro cs; rfl
  | succ k ih =>
    intro cs
    rw [List.replicate_succ, List.cons_append, digitsVal_cons_zero, ih]

theorem digitsVal_pad2 (cs : List Char) : digitsVal (pad2 cs) = digitsVal cs := by
  unfold pad2
  split
  · rfl
  · exact digitsVal_replicate_zero _ _

theorem splitChars_no_sep (sep : Char) (cs : List Char) (h : ∀ c ∈ cs, c ≠ sep) :
    splitChars sep cs = [cs] := by
  induction cs with
  | nil => rfl
  | cons c cs' ih =>
    have hc : ¬(c = sep) := h c (List.mem_cons_self c cs')
    have hrest : splitChars sep cs' = [cs'] := ih fun x hx => h x (List.mem_cons_of_mem c hx)
    simp [splitChars, hc, hrest]

theorem splitChars_append (sep : Char) (A : List Char) (hA : ∀ c ∈ A, c ≠ sep)
    {l p : List Char} {ps : List (List Char)} (h : splitChars sep l = p :: ps) :
    splitChars sep (A ++ l) = (A ++ p) :: ps := by
  induction A with
  | nil => simpa using h
  | cons a A' ih =>
    have ha : ¬(a = sep) := hA a (List.mem_cons_self a A')
    have h' := ih fun x hx => hA x (List.mem_cons_of_mem a hx)
    simp [splitChars, ha, h']

theorem splitChars_minutesToTime (m : Nat) :
    splitChars ':' (minutesToTime m).data =
      [pad2 (natToDecimal (m / 60)), pad2 (natToDecimal (m % 60))] := by
  have hA : ∀ c ∈ pad2 (natToDecimal (m / 60)), c ≠ ':' :=
    pad2_ne_colon _ (natDigitsAux_ne_colon _ _)
  have hB : ∀ c ∈ pad2 (natToDecimal (m % 60)), c ≠ ':' :=
    pad2_ne_colon _ (natDigitsAux_ne_colon _ _)
  have hmid : splitChars ':' (':' :: pad2 (natToDecimal (m % 60))) =
      [] :: [pad2 (natToDecimal (m % 60))] := by
    simp [splitChars, splitChars_no_sep ':' _ hB]
  have hall := splitChars_append ':' _ hA hmid
  show splitChars ':' (pad2 (natToDecimal (m / 60)) ++ ':' :: pad2 (natToDecimal (m % 60))) = _
  rw [hall, List.append_nil]

theorem timeToMinutes_minutesToTime (m : Nat) :
    timeToMinutes (minutesToTime m) = m := by
  unfold timeToMinutes
  rw [splitChars_minutesToTime]
  dsimp only
  rw [digitsVal_pad2, digitsVal_pad2, digitsVal_natToDecimal, digitsVal_natToDecimal]
  omega

theorem minutesToTime_injective {m₁ m₂ : Nat}
    (h : minutesToTime m₁ = minutesToTime m₂) : m₁ = m₂ := by
  have h₁ := timeToMinutes_minutesToTime m₁
  rw [h, timeToMinutes_minutesToTime] at h₁
  exact h₁.symm

/-- C8: the minutes-to-string conversion is the zero-padded
`floor(m/60) ":" (m mod 60)` rendering with no modulo-1440 normalisation:
converting the output back recovers `m` exactly for every `m`, for
`m ≥ 1440` the hour component (the digits before the colon) reads as
`m / 60 ≥ 24` and the output differs from the rendering of the
day-normalised value; concretely 1500 minutes yields `"25:00"`, not
`"01:00"`. -/
theorem claim_C8_minutesToTime_no_normalization :
    (∀ m : Nat,
      timeToMinutes (minutesToTime m) = m ∧
      (minutesToTime m).data =
        pad2 (natToDecimal (m / 60)) ++ ':' :: pad2 (natToDecimal (m % 60)) ∧
      (1440 ≤ m →
        24 ≤ m / 60 ∧
        digitsVal ((splitChars ':' (minutesToTime m).data).headD []) = m / 60 ∧
        minutesToTime m ≠ minutesToTime (m % 1440))) ∧
    minutesToTime 65 = "01:05" ∧
    minutesToTime 1500 = "25:00" ∧ minutesToTime 1500 ≠ "01:00" := by
  refine ⟨fun m => ⟨timeToMinutes_minutesToTime m, rfl, fun hm => ⟨by omega, ?_, ?_⟩⟩,
    by decide, by decide, by decide⟩
  · rw [splitChars_minutesToTime]
    dsimp only [List.headD]
    rw [digitsVal_pad2, digitsVal_natToDecimal]
  · intro heq
    have := minutesToTime_injective heq
    have hlt : m % 1440 < 1440 := Nat.mod_lt _ (by omega)
    omega

/-- Witness for C8 at the concrete overflowing input 1500. -/
theorem claim_C8_witness :
    24 ≤ 1500 / 60 ∧ minutesToTime 1500 ≠ minutesToTime (1500 % 1440) := by
  have h := (claim_C8_minutesToTime_no_normalization.1 1500).2.2 (by omega)
  exact ⟨h.1, h.2.2⟩

/-- C4: the overlap test is exactly the half-open intersection test
`start1 < end2 AND start2 < end1` on converted minutes, a missing (or
empty, hence falsy) end defaulting to start + 60; it is symmetric in its
two intervals, and an interval ending exactly at the minute another begins
never conflicts. -/
theorem claim_C4_doTimesOverlap_spec :
    ∀ (start1 : String) (end1 : Option String) (start2 : String) (end2 : Option String),
      (doTimesOverlap start1 end1 start2 end2 = true ↔
        (timeToMinutes start1 < effectiveEndMin (timeToMinutes start2) end2 ∧
         timeToMinutes start2 < effectiveEndMin (timeToMinutes start1) end1)) ∧
      doTimesOverlap start1 end1 start2 end2 = doTimesOverlap start2 end2 start1 end1 ∧
      doTimesOverlap start1 (some "10:00") "10:00" end2 = false := by
  intro s1 e1 s2 e2
  refine ⟨?_, ?_, ?_⟩
  · simp [doTimesOverlap]
  · simp [doTimesOverlap, Bool.and_comm]
  · simp only [doTimesOverlap, effectiveEndMin]
    have h2 : timeToMinutes "10:00" = 600 := by decide
    have hif : (if "10:00" = "" then timeToMinutes s1 + 60 else timeToMinutes "10:00") = 600 := by
      rw [if_neg (show ¬("10:00" = "") by decide)]
      exact h2
    simp only [h2, hif]
    simp

/-- Witness for C4: a genuine overlap, evaluated concretely. -/
theorem claim_C4_witness :
    doTimesOverlap "09:00" (some "10:00") "09:30" none = true ∧
    doTimesOverlap "09:00" (some "10:00") "09:30" none =
      doTimesOverlap "09:30" none "09:00" (some "10:00") := by
  have h := claim_C4_doTimesOverlap_spec "09:00" (some "10:00") "09:30" none
  exact ⟨h.1.mpr ⟨by decide, by decide⟩, h.2.1⟩

/-- C10: a candidate task whose `startTime` is absent yields
`hasConflicts = false` with an empty conflict list and no suggestion,
whatever the existing tasks are. -/
theorem claim_C10_no_startTime (today : String) (newTask : Task)
    (existingTasks : List Task) (h : newTask.startTime = none) :
    checkTimeConflicts today newTask existingTasks =
      { hasConflicts := false, conflicts := [], suggestedTime := none } := by
  simp [checkTimeConflicts, h, truthy]

/-- Witness for C10 at a concrete candidate without a start time. -/
theorem claim_C10_witness :
    checkTimeConflicts "2025-01-01" wNoStart [wExist] =
      { hasConflicts := false, conflicts := [], suggestedTime := none } :=
  claim_C10_no_startTime "2025-01-01" wNoStart [wExist] rfl

/-! Structure of `checkTimeConflicts` results. -/

theorem filterMap_none {α β : Type} (f : α → Option β) (l : List α)
    (h : ∀ a ∈ l, f a = none) : l.filterMap f = [] := by
  induction l with
  | nil => rfl
  | cons a l ih =>
    rw [List.filterMap_cons, h a (List.mem_cons_self a l)]
    exact ih fun x hx => h x (List.mem_cons_of_mem a hx)

theorem checkTimeConflicts_not_truthy {today : String} {nt : Task} {ex : List Task}
    (h : truthy nt.startTime = false) :
    checkTimeConflicts today nt ex =
      { hasConflicts := false, conflicts := [], suggestedTime := none } := by
  unfold checkTimeConflicts
  rw [if_pos (by simp [h])]

theorem checkTimeConflicts_conflicts_eq {today : String} {nt : Task} {ex : List Task}
    (h : truthy nt.startTime = true) :
    (checkTimeConflicts today nt ex).conflicts = ex.filterMap (conflictEntryFor today nt) := by
  unfold checkTimeConflicts
  rw [if_neg (by simp [h])]

theorem shouldCompare_flexible_left (today : String) (t1 t2 : Task)
    (h : t1.type = TaskType.flexible) : shouldCompareTasks today t1 t2 = false := by
  simp [shouldCompareTasks, h]

theorem shouldCompare_not_flexible_right {today : String} {t1 t2 : Task}
    (h : shouldCompareTasks today t1 t2 = true) : t2.type ≠ TaskType.flexible := by
  intro hf
  simp [shouldCompareTasks, hf] at h

theorem conflictEntryFor_some {today : String} {t1 t2 : Task} {c : TimeConflict}
    (h : conflictEntryFor today t1 t2 = some c) :
    shouldCompareTasks today t1 t2 = true ∧ c.conflictingTask = t2 ∧
    (c.conflictType = ConflictType.category ↔ t1.category = t2.category) := by
  unfold conflictEntryFor at h
  split at h
  · exact absurd h (by simp)
  next hcmp =>
    split at h
    · exact absurd h (by simp)
    next hst =>
      split at h
      · have hc := Option.some.inj h
        subst hc
        refine ⟨by simpa using hcmp, rfl, ?_⟩
        by_cases hcat : (t1.category == t2.category) = true
        · simp only [if_pos hcat]
          simp [beq_iff_eq] at hcat
          simpa using hcat
        · simp only [if_neg hcat]
          simp [beq_iff_eq] at hcat
          constructor
          · intro hfalse
            exact absurd hfalse (by decide)
          · intro heq
            exact absurd heq hcat
      · exact absurd h (by simp)

/-- C5: flexible tasks never participate in conflict checking in either
role: a flexible candidate always yields the trivial result, and no
conflict entry ever references a flexible task. -/
theorem claim_C5_flexible_gating (today : String) (newTask : Task)
    (existingTasks : List Task) :
    (newTask.type = TaskType.flexible →
      checkTimeConflicts today newTask existingTasks =
        { hasConflicts := false, conflicts := [], suggestedTime := none }) ∧
    ∀ c ∈ (checkTimeConflicts today newTask existingTasks).conflicts,
      c.conflictingTask.type ≠ TaskType.flexible := by
  constructor
  · intro hf
    cases htr : truthy newTask.startTime with
    | false => exact checkTimeConflicts_not_truthy htr
    | true =>
      have hnil : existingTasks.filterMap (conflictEntryFor today newTask) = [] :=
        filterMap_none _ _ fun et _ => by
          unfold conflictEntryFor
          rw [if_pos (by simp [shouldCompare_flexible_left today newTask et hf])]
      unfold checkTimeConflicts
      rw [if_neg (by simp [htr])]
      simp [hnil]
  · intro c hc
    cases htr : truthy newTask.startTime with
    | false =>
      rw [checkTimeConflicts_not_truthy htr] at hc
      exact absurd hc (by simp)
    | true =>
      rw [checkTimeConflicts_conflicts_eq htr, List.mem_filterMap] at hc
      obtain ⟨et, _, het⟩ := hc
      have hspec := conflictEntryFor_some het
      rw [hspec.2.1]
      exact shouldCompare_not_flexible_right hspec.1

/-- Witness for C5: a flexible candidate with a start time against a
normal task yields the trivial result. -/
theorem claim_C5_witness :
    checkTimeConflicts "2025-01-01" wFlex [wExist] =
      { hasConflicts := false, conflicts := [], suggestedTime := none } :=
  (claim_C5_flexible_gating "2025-01-01" wFlex [wExist]).1 rfl

/-! Severity classification. -/

theorem getConflictSeverity_cases (cs : List TimeConflict) :
    (getConflictSeverity cs = Severity.error ↔
      ∃ c ∈ cs, c.conflictType = ConflictType.category) ∧
    (getConflictSeverity cs = Severity.warning ↔
      cs ≠ [] ∧ ∀ c ∈ cs, c.conflictType ≠ ConflictType.category) ∧
    (getConflictSeverity cs = Severity.none ↔ cs = []) := by
  unfold getConflictSeverity
  by_cases h0 : cs.length = 0
  · have hnil : cs = [] := List.length_eq_zero.mp h0
    subst hnil
    simp
  · rw [if_neg h0]
    have hne : cs ≠ [] := fun h => h0 (by simp [h])
    by_cases hany : cs.any (fun c => c.conflictType == ConflictType.category) = true
    · rw [if_pos hany]
      rw [List.any_eq_true] at hany
      obtain ⟨c, hc, hct⟩ := hany
      have hcat : c.conflictType = ConflictType.category := by simpa using hct
      refine ⟨⟨fun _ => ⟨c, hc, hcat⟩, fun _ => rfl⟩, ?_, ?_⟩
      · constructor
        · intro hfalse
          exact absurd hfalse (by decide)
        · rintro ⟨_, hall⟩
          exact absurd hcat (hall c hc)
      · constructor
        · intro hfalse
          exact absurd hfalse (by decide)
        · intro hnil
          exact absurd hnil hne
    · rw [if_neg hany]
      have hnone : ∀ c ∈ cs, c.conflictType ≠ ConflictType.category := by
        intro c hc hct
        exact hany (List.any_eq_true.mpr ⟨c, hc, by simp [hct]⟩)
      refine ⟨?_, ?_, ?_⟩
      · constructor
        · intro hfalse
          exact absurd hfalse (by decide)
        · rintro ⟨c, hc, hct⟩
          exact absurd hct (hnone c hc)
      · exact ⟨fun _ => ⟨hne, hnone⟩, fun _ => rfl⟩
      · constructor
        · intro hfalse
          exact absurd hfalse (by decide)
        · intro hnil
          exact absurd hnil hne

/-- C3: over any result of `checkTimeConflicts`, the aggregate severity is
`error` exactly when some conflict entry is a `category` conflict,
`warning` exactly when conflicts exist but none is a `category` conflict,
and `none` exactly when the conflict list is empty; moreover an entry is a
`category` conflict exactly when the candidate and the conflicting task
share the same `category` value. -/
theorem claim_C3_severity (today : String) (newTask : Task) (existingTasks : List Task) :
    (getConflictSeverity (checkTimeConflicts today newTask existingTasks).conflicts =
        Severity.error ↔
      ∃ c ∈ (checkTimeConflicts today newTask existingTasks).conflicts,
        c.conflictType = ConflictType.category) ∧
    (getConflictSeverity (checkTimeConflicts today newTask existingTasks).conflicts =
        Severity.warning ↔
      (checkTimeConflicts today newTask existingTasks).conflicts ≠ [] ∧
        ∀ c ∈ (checkTimeConflicts today newTask existingTasks).conflicts,
          c.conflictType ≠ ConflictType.category) ∧
    (getConflictSeverity (checkTimeConflicts today newTask existingTasks).conflicts =
        Severity.none ↔
      (checkTimeConflicts today newTask existingTasks).conflicts = []) ∧
    ∀ c ∈ (checkTimeConflicts today newTask existingTasks).conflicts,
      (c.conflictType = ConflictType.category ↔
        newTask.category = c.conflictingTask.category) := by
  refine ⟨(getConflictSeverity_cases _).1, (getConflictSeverity_cases _).2.1,
    (getConflictSeverity_cases _).2.2, ?_⟩
  intro c hc
  cases htr : truthy newTask.startTime with
  | false =>
    rw [checkTimeConflicts_not_truthy htr] at hc
    exact absurd hc (by simp)
  | true =>
    rw [checkTimeConflicts_conflicts_eq htr, List.mem_filterMap] at hc
    obtain ⟨et, _, het⟩ := hc
    have hspec := conflictEntryFor_some het
    rw [hspec.2.1]
    exact hspec.2.2

/-- Witness for C3: a same-category collision at a concrete input
aggregates to `error`. -/
theorem claim_C3_witness :
    getConflictSeverity (checkTimeConflicts "2025-01-01" wCandSame [wExist]).conflicts =
      Severity.error := by
  refine (claim_C3_severity "2025-01-01" wCandSame [wExist]).1.mpr
    ⟨⟨wExist, ConflictType.category, "You have another work task at 09:00"⟩, by decide, rfl⟩

/-! The 30-minute probe loop. -/

theorem checkTimeConflicts_suggested_of_hasConflicts {today : String} {nt : Task}
    {ex : List Task} (htr : truthy nt.startTime = true)
    (h : (checkTimeConflicts today nt ex).hasConflicts = true) :
    (checkTimeConflicts today nt ex).suggestedTime =
      some (findNextAvailableTime today (nt.startTime.getD "") ex nt) := by
  unfold checkTimeConflicts at h ⊢
  rw [if_neg (by simp [htr])] at h ⊢
  dsimp only at h ⊢
  rw [if_pos h]

theorem findNextLoop_spec (today : String) (tc : Task) (ex : List Task) (ds : String) :
    ∀ fuel start : Nat,
      (∃ k, k < fuel ∧ probeBusy today tc ex (start + 30 * k) = false ∧
        (∀ j, j < k → probeBusy today tc ex (start + 30 * j) = true) ∧
        findNextLoop today tc ex ds start fuel = minutesToTime (start + 30 * k)) ∨
      ((∀ k, k < fuel → probeBusy today tc ex (start + 30 * k) = true) ∧
        findNextLoop today tc ex ds start fuel = ds) := by
  intro fuel
  induction fuel with
  | zero =>
    intro start
    right
    exact ⟨fun k hk => absurd hk (Nat.not_lt_zero k), rfl⟩
  | succ fuel ih =>
    intro start
    by_cases hb : probeBusy today tc ex start = true
    · rcases ih (start + 30) with ⟨k, hk, hfree, hbusy, heq⟩ | ⟨hall, heq⟩
      · left
        refine ⟨k + 1, by omega, ?_, ?_, ?_⟩
        · rw [show start + 30 * (k + 1) = start + 30 + 30 * k by ring]
          exact hfree
        · intro j hj
          cases j with
          | zero => simpa using hb
          | succ j =>
            rw [show start + 30 * (j + 1) = start + 30 + 30 * j by ring]
            exact hbusy j (by omega)
        · unfold findNextLoop
          rw [if_pos hb, heq]
          congr 1
          ring
      · right
        constructor
        · intro k hk
          cases k with
          | zero => simpa using hb
          | succ k =>
            rw [show start + 30 * (k + 1) = start + 30 + 30 * k by ring]
            exact hall k (by omega)
        · unfold findNextLoop
          rw [if_pos hb]
          exact heq
    · left
      rw [Bool.not_eq_true] at hb
      refine ⟨0, by omega, by simpa using hb, fun j hj => absurd hj (by omega), ?_⟩
      unfold findNextLoop
      rw [show start + 30 * 0 = start by ring, if_neg (by simp [hb])]

/-- C1: when `checkTimeConflicts` finds conflicts, the returned suggestion
comes from probing start times `original + 30k` for `k = 0, ..., 23` in
order, each probe tested as a 60-minute interval against every eligible
existing task; it equals (the rendering of) the first conflict-free probe,
and when all 24 probes conflict it is the original requested start
unchanged.  In particular any suggestion differing from the input lies at
`original + 30k` minutes for some `k < 24`. -/
theorem claim_C1_suggested_time (today : String) (newTask : Task)
    (existingTasks : List Task)
    (h : (checkTimeConflicts today newTask existingTasks).hasConflicts = true) :
    ∃ s, (checkTimeConflicts today newTask existingTasks).suggestedTime = some s ∧
      ((∃ k, k < 24 ∧
          probeBusy today newTask existingTasks
            (timeToMinutes (newTask.startTime.getD "") + 30 * k) = false ∧
          (∀ j, j < k → probeBusy today newTask existingTasks
            (timeToMinutes (newTask.startTime.getD "") + 30 * j) = true) ∧
          s = minutesToTime (timeToMinutes (newTask.startTime.getD "") + 30 * k)) ∨
        ((∀ k, k < 24 → probeBusy today newTask existingTasks
            (timeToMinutes (newTask.startTime.getD "") + 30 * k) = true) ∧
          s = newTask.startTime.getD "")) ∧
      (s ≠ newTask.startTime.getD "" →
        ∃ k, k < 24 ∧
          s = minutesToTime (timeToMinutes (newTask.startTime.getD "") + 30 * k)) := by
  cases htr : truthy newTask.startTime with
  | false =>
    rw [checkTimeConflicts_not_truthy htr] at h
    exact absurd h (by simp)
  | true =>
    have hsugg := checkTimeConflicts_suggested_of_hasConflicts htr h
    have hloop : findNextAvailableTime today (newTask.startTime.getD "") existingTasks newTask =
        findNextLoop today newTask existingTasks (newTask.startTime.getD "")
          (timeToMinutes (newTask.startTime.getD "")) 24 := rfl
    rcases findNextLoop_spec today newTask existingTasks (newTask.startTime.getD "") 24
        (timeToMinutes (newTask.startTime.getD "")) with
      ⟨k, hk, hfree, hbusy, heq⟩ | ⟨hall, heq⟩
    · refine ⟨minutesToTime (timeToMinutes (newTask.startTime.getD "") + 30 * k), ?_,
        Or.inl ⟨k, hk, hfree, hbusy, rfl⟩, fun _ => ⟨k, hk, rfl⟩⟩
      rw [hsugg, hloop, heq]
    · refine ⟨newTask.startTime.getD "", ?_, Or.inr ⟨hall, rfl⟩, ?_⟩
      · rw [hsugg, hloop, heq]
      · intro hne
        exact absurd rfl hne

/-- Witness for C1: candidate at 09:30 against an existing 09:00–10:00
task (spec scenario 2); the probe loop yields `"10:00"`. -/
theorem claim_C1_witness :
    (checkTimeConflicts "2025-01-01" wCand [wExist]).hasConflicts = true ∧
    (checkTimeConflicts "2025-01-01" wCand [wExist]).suggestedTime = some "10:00" ∧
    (∃ s, (checkTimeConflicts "2025-01-01" wCand [wExist]).suggestedTime = some s ∧
      ((∃ k, k < 24 ∧
          probeBusy "2025-01-01" wCand [wExist]
            (timeToMinutes (wCand.startTime.getD "") + 30 * k) = false ∧
          (∀ j, j < k → probeBusy "2025-01-01" wCand [wExist]
            (timeToMinutes (wCand.startTime.getD "") + 30 * j) = true) ∧
          s = minutesToTime (timeToMinutes (wCand.startTime.getD "") + 30 * k)) ∨
        ((∀ k, k < 24 → probeBusy "2025-01-01" wCand [wExist]
            (timeToMinutes (wCand.startTime.getD "") + 30 * k) = true) ∧
          s = wCand.startTime.getD "")) ∧
      (s ≠ wCand.startTime.getD "" →
        ∃ k, k < 24 ∧
          s = minutesToTime (timeToMinutes (wCand.startTime.getD "") + 30 * k))) :=
  ⟨by decide, by decide, claim_C1_suggested_time "2025-01-01" wCand [wExist] (by decide)⟩

/-- C2: concrete scenario 3 — with two fixed tasks at 08:00–09:00 and
12:00–13:00 and one flexible task, the pass injects the sleep blocks
`[23:00, 24:00)` and `[00:00, 06:00)` and the morning block
`[06:00, 07:00)` into the occupied list, computes the first free gap of
the working window as 07:00–08:00, and assigns the flexible task
`suggestedTime = "07:00"`. -/
theorem claim_C2_scenario3 :
    occupiedIntervals [c2a, c2b, c2f] =
      [⟨0, 360⟩, ⟨360, 420⟩, ⟨480, 540⟩, ⟨720, 780⟩, ⟨1380, 1440⟩] ∧
    availableSlots [c2a, c2b, c2f] = [⟨420, 480⟩, ⟨540, 720⟩, ⟨780, 1380⟩] ∧
    optimizeSchedule [c2a, c2b, c2f] =
      [c2a, c2b, { c2f with suggestedTime := some "07:00" }] := by
  exact ⟨by decide, by decide, by decide⟩

/-! Shape of one optimization pass. -/

theorem mem_zip_map {α β : Type} (f : α → β) :
    ∀ (l : List α) (p : α × β), p ∈ l.zip (l.map f) → p.2 = f p.1 ∧ p.1 ∈ l := by
  intro l
  induction l with
  | nil => intro p hp; simp at hp
  | cons a l ih =>
    intro p hp
    rw [List.map_cons, List.zip_cons_cons, List.mem_cons] at hp
    rcases hp with hp | hp
    · subst hp
      exact ⟨rfl, List.mem_cons_self a l⟩
    · obtain ⟨h1, h2⟩ := ih p hp
      exact ⟨h1, List.mem_cons_of_mem a h2⟩

/-- C6: every active flexible task that received no suggestion in the pass
(no entry for its id in the pass's suggestion list) leaves the pass with
`suggestedTime` cleared, stale value or not, and every completed or
non-flexible task leaves the pass unchanged — position by position, the
pass preserving the list length. -/
theorem claim_C6_clears_stale (tasks : List Task) :
    (optimizeSchedule tasks).length = tasks.length ∧
    ∀ p ∈ tasks.zip (optimizeSchedule tasks),
      (¬(p.1.type = TaskType.flexible ∧ p.1.completed = false) → p.2 = p.1) ∧
      (p.1.type = TaskType.flexible → p.1.completed = false →
        (optSuggestions tasks).find? (fun s => s.1 == p.1.id) = none →
        p.2 = { p.1 with suggestedTime := none }) := by
  unfold optimizeSchedule
  split
  next hlen =>
    refine ⟨rfl, ?_⟩
    intro p hp
    have hps := mem_zip_map id tasks p (by rwa [List.map_id])
    constructor
    · intro _
      exact hps.1
    · intro hty hcomp _
      exfalso
      have hmem : p.1 ∈ tasks.filter (fun t => t.type == TaskType.flexible && !t.completed) :=
        List.mem_filter.mpr ⟨hps.2, by simp [hty, hcomp]⟩
      rw [List.length_eq_zero.mp hlen] at hmem
      exact absurd hmem (by simp)
  next hlen =>
    refine ⟨by rw [List.length_map], ?_⟩
    intro p hp
    have hps := mem_zip_map (applySuggestion (optSuggestions tasks)) tasks p hp
    rw [hps.1]
    constructor
    · intro hnot
      unfold applySuggestion
      rw [if_neg ?_]
      intro hcond
      rw [Bool.and_eq_true, beq_iff_eq, Bool.not_eq_true'] at hcond
      exact hnot hcond
    · intro hty hcomp hfind
      unfold applySuggestion
      rw [if_pos (by simp [hty, hcomp]), hfind]

/-- Witness for C6: a flexible task with a stale suggestion, facing a day
fully blocked by a 07:00–23:00 task, receives no slot and exits the pass
with its suggestion cleared, while the blocker is untouched. -/
theorem claim_C6_witness :
    wStale.suggestedTime = some "09:00" ∧
    (wBlocker, (optimizeSchedule [wBlocker, wStale]).get ⟨0, by decide⟩).2 = wBlocker ∧
    (wStale, (optimizeSchedule [wBlocker, wStale]).get ⟨1, by decide⟩).2 =
      { wStale with suggestedTime := none } := by
  have h := claim_C6_clears_stale [wBlocker, wStale]
  refine ⟨rfl, ?_, ?_⟩
  · exact (h.2 _ (by decide)).1 (by decide)
  · exact (h.2 _ (by decide)).2 rfl rfl (by decide)

/-! Identity of the suggestion computation across passes. -/

theorem assignSlotsAux_eq_ids : ∀ (fuel : Nat) (ts : List Task) (slots : List Interval),
    assignSlotsAux fuel ts slots =
      (assignIdsAux fuel (ts.map Task.id) slots).map (fun p => (p.1, minutesToTime p.2)) := by
  intro fuel
  induction fuel with
  | zero => intro ts slots; rfl
  | succ fuel ih =>
    intro ts slots
    cases ts with
    | nil => rfl
    | cons t rest =>
      cases slots with
      | nil => rfl
      | cons slot ss =>
        show (if slot.«end» - slot.start < 60 then assignSlotsAux fuel (t :: rest) ss
            else (t.id, minutesToTime slot.start)
              :: assignSlotsAux fuel rest ({ start := slot.start + 60, «end» := slot.«end» } :: ss)) = _
        rw [List.map_cons]
        show _ = (if slot.«end» - slot.start < 60 then
            assignIdsAux fuel (t.id :: rest.map Task.id) ss
          else (t.id, slot.start)
            :: assignIdsAux fuel (rest.map Task.id)
                ({ start := slot.start + 60, «end» := slot.«end» } :: ss)).map
            (fun p => (p.1, minutesToTime p.2))
        by_cases hlt : slot.«end» - slot.start < 60
        · rw [if_pos hlt, if_pos hlt]
          have := ih (t :: rest) ss
          rwa [List.map_cons] at this
        · rw [if_neg hlt, if_neg hlt, List.map_cons]
          rw [ih rest ({ start := slot.start + 60, «end» := slot.«end» } :: ss)]

theorem optSuggestions_eq_ids (tasks : List Task) :
    optSuggestions tasks =
      (assignIdsAux
        (((tasks.filter fun t => t.type == TaskType.flexible && !t.completed).map Task.id).length +
          (availableSlots tasks).length)
        ((tasks.filter fun t => t.type == TaskType.flexible && !t.completed).map Task.id)
        (availableSlots tasks)).map (fun p => (p.1, minutesToTime p.2)) := by
  unfold optSuggestions assignSlots
  rw [assignSlotsAux_eq_ids, List.length_map]

theorem applySuggestion_fields (sug : List (String × String)) (t : Task) :
    (applySuggestion sug t).id = t.id ∧
    (applySuggestion sug t).type = t.type ∧
    (applySuggestion sug t).completed = t.completed ∧
    (applySuggestion sug t).startTime = t.startTime ∧
    (applySuggestion sug t).endTime = t.endTime := by
  unfold applySuggestion
  split
  · split <;> exact ⟨rfl, rfl, rfl, rfl, rfl⟩
  · exact ⟨rfl, rfl, rfl, rfl, rfl⟩

theorem filter_map_applySuggestion (sug : List (String × String)) (tasks : List Task)
    (p : Task → Bool) (hp : ∀ t, p (applySuggestion sug t) = p t) :
    (tasks.map (applySuggestion sug)).filter p =
      (tasks.filter p).map (applySuggestion sug) := by
  rw [List.filter_map]
  congr 1
  exact List.filter_congr fun t _ => hp t

theorem taskInterval_applySuggestion (sug : List (String × String)) (t : Task) :
    taskInterval (applySuggestion sug t) = taskInterval t := by
  unfold taskInterval
  rw [(applySuggestion_fields sug t).2.2.2.1, (applySuggestion_fields sug t).2.2.2.2]

theorem sched_pred_applySuggestion (sug : List (String × String)) (t : Task) :
    (truthy (applySuggestion sug t).startTime && !(applySuggestion sug t).completed) =
      (truthy t.startTime && !t.completed) := by
  rw [(applySuggestion_fields sug t).2.2.2.1, (applySuggestion_fields sug t).2.2.1]

theorem flex_pred_applySuggestion (sug : List (String × String)) (t : Task) :
    ((applySuggestion sug t).type == TaskType.flexible && !(applySuggestion sug t).completed) =
      (t.type == TaskType.flexible && !t.completed) := by
  rw [(applySuggestion_fields sug t).2.1, (applySuggestion_fields sug t).2.2.1]

theorem scheduledIntervals_applySuggestion (sug : List (String × String)) (tasks : List Task) :
    scheduledIntervals (tasks.map (applySuggestion sug)) = scheduledIntervals tasks := by
  unfold scheduledIntervals
  rw [filter_map_applySuggestion sug tasks _ (sched_pred_applySuggestion sug), List.map_map]
  congr 1
  exact List.map_congr_left fun t _ => taskInterval_applySuggestion sug t

theorem availableSlots_applySuggestion (sug : List (String × String)) (tasks : List Task) :
    availableSlots (tasks.map (applySuggestion sug)) = availableSlots tasks := by
  unfold availableSlots occupiedIntervals
  rw [scheduledIntervals_applySuggestion]

theorem flexIds_applySuggestion (sug : List (String × String)) (tasks : List Task) :
    ((tasks.map (applySuggestion sug)).filter
        fun t => t.type == TaskType.flexible && !t.completed).map Task.id =
      (tasks.filter fun t => t.type == TaskType.flexible && !t.completed).map Task.id := by
  rw [filter_map_applySuggestion sug tasks _ (flex_pred_applySuggestion sug), List.map_map]
  exact List.map_congr_left fun t _ => (applySuggestion_fields sug t).1

theorem applySuggestion_idem (sug : List (String × String)) (t : Task) :
    applySuggestion sug (applySuggestion sug t) = applySuggestion sug t := by
  by_cases hc : (t.type == TaskType.flexible && !t.completed) = true
  · cases hf : sug.find? (fun s => s.1 == t.id) with
    | none => simp [applySuggestion, hc, hf]
    | some s => simp [applySuggestion, hc, hf]
  · simp [applySuggestion, hc]

/-- C7: one pass's suggestion assignment is unchanged by re-running the
optimizer on its own output (suggested times never feed back into the
occupied-interval or flexible-task computation), so a second pass computes
the same assignments and the pass is idempotent on the task collection. -/
theorem claim_C7_idempotent (tasks : List Task) :
    optSuggestions (optimizeSchedule tasks) = optSuggestions tasks ∧
    optimizeSchedule (optimizeSchedule tasks) = optimizeSchedule tasks := by
  by_cases hlen : (tasks.filter fun t => t.type == TaskType.flexible && !t.completed).length = 0
  · have he : optimizeSchedule tasks = tasks := by
      unfold optimizeSchedule
      rw [if_pos hlen]
    rw [he]
    exact ⟨rfl, he⟩
  · have he : optimizeSchedule tasks = tasks.map (applySuggestion (optSuggestions tasks)) := by
      unfold optimizeSchedule
      rw [if_neg hlen]
    have hsug : optSuggestions (tasks.map (applySuggestion (optSuggestions tasks))) =
        optSuggestions tasks := by
      rw [optSuggestions_eq_ids, optSuggestions_eq_ids tasks,
        flexIds_applySuggestion, availableSlots_applySuggestion]
    have hlen2 : ¬((tasks.map (applySuggestion (optSuggestions tasks))).filter
        fun t => t.type == TaskType.flexible && !t.completed).length = 0 := by
      intro h0
      apply hlen
      have := congrArg List.length (flexIds_applySuggestion (optSuggestions tasks) tasks)
      rw [List.length_map, List.length_map] at this
      omega
    constructor
    · rw [he, hsug]
    · rw [he]
      show optimizeSchedule (tasks.map (applySuggestion (optSuggestions tasks))) = _
      unfold optimizeSchedule
      rw [if_neg hlen2, hsug, List.map_map]
      exact List.map_congr_left fun t _ => applySuggestion_idem (optSuggestions tasks) t

/-! Sortedness and membership of the occupied-interval list. -/

theorem mem_insertByStart (x : Interval) : ∀ (l : List Interval) (a : Interval),
    a ∈ insertByStart x l ↔ a = x ∨ a ∈ l := by
  intro l
  induction l with
  | nil => intro a; simp [insertByStart]
  | cons y ys ih =>
    intro a
    unfold insertByStart
    split
    · rw [List.mem_cons, ih a, List.mem_cons]
      tauto
    · rw [List.mem_cons, List.mem_cons]

theorem mem_sortByStart : ∀ (l : List Interval) (a : Interval),
    a ∈ sortByStart l ↔ a ∈ l := by
  intro l
  induction l with
  | nil => intro a; exact Iff.rfl
  | cons x xs ih =>
    intro a
    unfold sortByStart
    rw [mem_insertByStart, ih, List.mem_cons]

theorem pairwise_insertByStart (x : Interval) : ∀ (l : List Interval),
    List.Pairwise (fun a b => a.start ≤ b.start) l →
    List.Pairwise (fun a b => a.start ≤ b.start) (insertByStart x l) := by
  intro l
  induction l with
  | nil => intro _; exact List.pairwise_singleton _ _
  | cons y ys ih =>
    intro hp
    rw [List.pairwise_cons] at hp
    obtain ⟨hy, hys⟩ := hp
    unfold insertByStart
    split
    next hlt =>
      rw [List.pairwise_cons]
      refine ⟨?_, ih hys⟩
      intro b hb
      rw [mem_insertByStart] at hb
      rcases hb with rfl | hb
      · omega
      · exact hy b hb
    next hge =>
      rw [List.pairwise_cons]
      refine ⟨?_, List.pairwise_cons.mpr ⟨hy, hys⟩⟩
      intro b hb
      rw [List.mem_cons] at hb
      rcases hb with rfl | hb
      · omega
      · have := hy b hb
        omega

theorem pairwise_sortByStart : ∀ l : List Interval,
    List.Pairwise (fun a b => a.start ≤ b.start) (sortByStart l) := by
  intro l
  induction l with
  | nil => exact List.Pairwise.nil
  | cons x xs ih => exact pairwise_insertByStart x _ ih

theorem mem_withVirtualBlocks {l : List Interval} {iv : Interval}
    (h : iv ∈ withVirtualBlocks l) :
    iv ∈ l ∨ iv = ⟨1380, 1440⟩ ∨ iv = ⟨0, 360⟩ ∨ iv = ⟨360, 420⟩ := by
  simp only [withVirtualBlocks] at h
  rw [mem_sortByStart] at h
  split at h <;> split at h <;> split at h <;>
    (try simp only [List.mem_append, List.mem_singleton] at h) <;> tauto

theorem subset_withVirtualBlocks {l : List Interval} {iv : Interval} (h : iv ∈ l) :
    iv ∈ withVirtualBlocks l := by
  simp only [withVirtualBlocks]
  rw [mem_sortByStart]
  split <;> split <;> split <;> simp [List.mem_append, h]

theorem mem_scheduledIntervals {tasks : List Task} {iv : Interval}
    (h : iv ∈ scheduledIntervals tasks) :
    ∃ t ∈ tasks, truthy t.startTime = true ∧ t.completed = false ∧ iv = taskInterval t := by
  unfold scheduledIntervals at h
  rw [mem_sortByStart, List.mem_map] at h
  obtain ⟨t, ht, rfl⟩ := h
  rw [List.mem_filter] at ht
  have hcond := ht.2
  rw [Bool.and_eq_true, Bool.not_eq_true'] at hcond
  exact ⟨t, ht.1, hcond.1, hcond.2, rfl⟩

theorem occupied_sorted (tasks : List Task) :
    List.Pairwise (fun a b => a.start ≤ b.start) (occupiedIntervals tasks) := by
  unfold occupiedIntervals withVirtualBlocks
  exact pairwise_sortByStart _

theorem occupied_wf {tasks : List Task} (hwf : ∀ t ∈ tasks, taskTimesWF t = true) :
    ∀ iv ∈ occupiedIntervals tasks, iv.start ≤ iv.«end» := by
  intro iv hiv
  unfold occupiedIntervals at hiv
  rcases mem_withVirtualBlocks hiv with h | h | h | h
  · obtain ⟨t, ht, htr, _, rfl⟩ := mem_scheduledIntervals h
    have hw := hwf t ht
    unfold taskTimesWF at hw
    rw [htr] at hw
    simp only [Bool.not_true, Bool.false_or, decide_eq_true_eq] at hw
    exact hw
  · subst h
    decide
  · subst h
    decide
  · subst h
    decide

/-! Chain structure of the free slots. -/

theorem computeSlots_spec : ∀ (l : List Interval) (lastEnd : Nat),
    List.Pairwise (fun a b => a.start ≤ b.start) l →
    (∀ iv ∈ l, iv.start ≤ iv.«end») →
    (∀ s ∈ computeSlots l lastEnd,
      lastEnd ≤ s.start ∧ s.start + 60 ≤ s.«end» ∧
      (∀ iv ∈ l, iv.«end» ≤ s.start ∨ s.«end» ≤ iv.start)) ∧
    List.Pairwise (fun a b => a.«end» ≤ b.start) (computeSlots l lastEnd) := by
  intro l
  induction l with
  | nil =>
    intro lastEnd _ _
    constructor
    · intro s hs
      unfold computeSlots at hs
      split at hs
      next hc =>
        rw [List.mem_singleton] at hs
        subst hs
        exact ⟨le_refl _, by show lastEnd + 60 ≤ 1380; omega,
          fun iv hiv => absurd hiv (by simp)⟩
      · exact absurd hs (by simp)
    · unfold computeSlots
      split
      · exact List.pairwise_singleton _ _
      · exact List.Pairwise.nil
  | cons t rest ih =>
    intro lastEnd hsort hwf
    rw [List.pairwise_cons] at hsort
    obtain ⟨hts, hrest⟩ := hsort
    have hwt : t.start ≤ t.«end» := hwf t (List.mem_cons_self t rest)
    have hwr : ∀ iv ∈ rest, iv.start ≤ iv.«end» :=
      fun iv hiv => hwf iv (List.mem_cons_of_mem t hiv)
    have IH := ih (max lastEnd t.«end») hrest hwr
    unfold computeSlots
    split
    next hc =>
      have hc' : lastEnd + 60 ≤ t.start := by omega
      constructor
      · intro s hs
        rw [List.mem_cons] at hs
        rcases hs with rfl | hs
        · refine ⟨le_refl _, hc', ?_⟩
          intro iv hiv
          rw [List.mem_cons] at hiv
          rcases hiv with rfl | hiv
          · right
            exact le_refl _
          · right
            exact hts iv hiv
        · obtain ⟨h1, h2, h3⟩ := IH.1 s hs
          have h1l : lastEnd ≤ s.start := le_trans (le_max_left _ _) h1
          have h1r : t.«end» ≤ s.start := le_trans (le_max_right _ _) h1
          refine ⟨h1l, h2, ?_⟩
          intro iv hiv
          rw [List.mem_cons] at hiv
          rcases hiv with rfl | hiv
          · left
            exact h1r
          · exact h3 iv hiv
      · rw [List.pairwise_cons]
        refine ⟨?_, IH.2⟩
        intro s hs
        obtain ⟨h1, _, _⟩ := IH.1 s hs
        have h1r : t.«end» ≤ s.start := le_trans (le_max_right _ _) h1
        show t.start ≤ s.start
        omega
    next hc =>
      constructor
      · intro s hs
        obtain ⟨h1, h2, h3⟩ := IH.1 s hs
        have h1l : lastEnd ≤ s.start := le_trans (le_max_left _ _) h1
        have h1r : t.«end» ≤ s.start := le_trans (le_max_right _ _) h1
        refine ⟨h1l, h2, ?_⟩
        intro iv hiv
        rw [List.mem_cons] at hiv
        rcases hiv with rfl | hiv
        · left
          exact h1r
        · exact h3 iv hiv
      · exact IH.2

/-! Structure of the assignment loop over chained slots. -/

theorem assignIdsAux_spec : ∀ (fuel : Nat) (ids : List String) (ss : List Interval),
    List.Pairwise (fun a b => a.«end» ≤ b.start) ss →
    List.Pairwise (fun p q => p.2 + 60 ≤ q.2) (assignIdsAux fuel ids ss) ∧
    (∀ p ∈ assignIdsAux fuel ids ss, ∃ s ∈ ss, s.start ≤ p.2 ∧ p.2 + 60 ≤ s.«end») := by
  intro fuel
  induction fuel with
  | zero =>
    intro ids ss _
    exact ⟨List.Pairwise.nil, by simp [assignIdsAux]⟩
  | succ fuel ih =>
    intro ids ss hp
    cases ids with
    | nil => exact ⟨List.Pairwise.nil, by simp [assignIdsAux]⟩
    | cons i rest =>
      cases ss with
      | nil => exact ⟨List.Pairwise.nil, by simp [assignIdsAux]⟩
      | cons slot ss' =>
        rw [List.pairwise_cons] at hp
        obtain ⟨hslot, hss⟩ := hp
        unfold assignIdsAux
        by_cases hlt : slot.«end» - slot.start < 60
        · rw [if_pos hlt]
          have IH := ih (i :: rest) ss' hss
          refine ⟨IH.1, ?_⟩
          intro p hp'
          obtain ⟨s, hs, h1, h2⟩ := IH.2 p hp'
          exact ⟨s, List.mem_cons_of_mem _ hs, h1, h2⟩
        · rw [if_neg hlt]
          have h60 : slot.start + 60 ≤ slot.«end» := by omega
          have hchain : List.Pairwise (fun a b => a.«end» ≤ b.start)
              ({ start := slot.start + 60, «end» := slot.«end» } :: ss') := by
            rw [List.pairwise_cons]
            exact ⟨fun b hb => hslot b hb, hss⟩
          have IH := ih rest _ hchain
          constructor
          · rw [List.pairwise_cons]
            refine ⟨?_, IH.1⟩
            intro q hq
            obtain ⟨s, hs, h1, h2⟩ := IH.2 q hq
            rw [List.mem_cons] at hs
            rcases hs with rfl | hs
            · exact h1
            · have hcc : slot.«end» ≤ s.start := hslot s hs
              show slot.start + 60 ≤ q.2
              omega
          · intro p hp'
            rw [List.mem_cons] at hp'
            rcases hp' with rfl | hp'
            · exact ⟨slot, List.mem_cons_self _ _, le_refl _, h60⟩
            · obtain ⟨s, hs, h1, h2⟩ := IH.2 p hp'
              rw [List.mem_cons] at hs
              rcases hs with rfl | hs
              · have h1' : slot.start + 60 ≤ p.2 := h1
                have h2' : p.2 + 60 ≤ slot.«end» := h2
                exact ⟨slot, List.mem_cons_self _ _, by omega, h2'⟩
              · exact ⟨s, List.mem_cons_of_mem _ hs, h1, h2⟩

/-- C9: within one optimization pass over well-formed tasks (no explicit
end earlier than its start), the 60-minute intervals starting at the
assigned suggested times are pairwise disjoint, none of them overlaps any
occupied interval of the pass (the intervals of non-completed tasks with a
start time, which all belong to the occupied list, and the injected
sleep/morning blocks), and distinct flexible tasks receive distinct
suggested times. -/
theorem claim_C9_assignment_disjoint (tasks : List Task)
    (hwf : ∀ t ∈ tasks, taskTimesWF t = true) :
    List.Pairwise (fun p q =>
      timeToMinutes p.2 + 60 ≤ timeToMinutes q.2 ∨
      timeToMinutes q.2 + 60 ≤ timeToMinutes p.2) (optSuggestions tasks) ∧
    (∀ p ∈ optSuggestions tasks, ∀ iv ∈ occupiedIntervals tasks,
      iv.«end» ≤ timeToMinutes p.2 ∨ timeToMinutes p.2 + 60 ≤ iv.start) ∧
    List.Pairwise (fun p q => p.2 ≠ q.2) (optSuggestions tasks) ∧
    (∀ t ∈ tasks, truthy t.startTime = true → t.completed = false →
      taskInterval t ∈ occupiedIntervals tasks) := by
  have hslots := computeSlots_spec (occupiedIntervals tasks) 420
    (occupied_sorted tasks) (occupied_wf hwf)
  have hassign := assignIdsAux_spec
    (((tasks.filter fun t => t.type == TaskType.flexible && !t.completed).map Task.id).length +
      (availableSlots tasks).length)
    ((tasks.filter fun t => t.type == TaskType.flexible && !t.completed).map Task.id)
    (availableSlots tasks) hslots.2
  have hrender := optSuggestions_eq_ids tasks
  refine ⟨?_, ?_, ?_, ?_⟩
  · rw [hrender, List.pairwise_map]
    apply hassign.1.imp
    intro p q hpq
    rw [timeToMinutes_minutesToTime, timeToMinutes_minutesToTime]
    exact Or.inl hpq
  · intro p hp iv hiv
    rw [hrender, List.mem_map] at hp
    obtain ⟨q, hq, rfl⟩ := hp
    obtain ⟨s, hs, h1, h2⟩ := hassign.2 q hq
    obtain ⟨_, _, h3⟩ := hslots.1 s hs
    rw [timeToMinutes_minutesToTime]
    rcases h3 iv hiv with h | h
    · left
      omega
    · right
      omega
  · rw [hrender, List.pairwise_map]
    apply hassign.1.imp
    intro p q hpq heq
    have := minutesToTime_injective heq
    omega
  · intro t ht htr hcomp
    unfold occupiedIntervals
    apply subset_withVirtualBlocks
    unfold scheduledIntervals
    rw [mem_sortByStart, List.mem_map]
    exact ⟨t, List.mem_filter.mpr ⟨ht, by simp [htr, hcomp]⟩, rfl⟩

/-- Witness for C9: the scenario-3 task list is well-formed and its two
suggestion facts follow from the theorem. -/
theorem claim_C9_witness :
    (∀ t ∈ [c2a, c2b, c2f], taskTimesWF t = true) ∧
    List.Pairwise (fun p q => p.2 ≠ q.2) (optSuggestions [c2a, c2b, c2f]) ∧
    (∀ p ∈ optSuggestions [c2a, c2b, c2f], ∀ iv ∈ occupiedIntervals [c2a, c2b, c2f],
      iv.«end» ≤ timeToMinutes p.2 ∨ timeToMinutes p.2 + 60 ≤ iv.start) := by
  have h := claim_C9_assignment_disjoint [c2a, c2b, c2f] (by decide)
  exact ⟨by decide, h.2.2.1, h.2.1⟩

end SmartDay
